import Mathlib

/-!
Verification of the artifact fetch/normalization pipeline
(fetch_artifacts.py) and the manifest generator
(.github/scripts/generate_manifest.py) of the ort-artifacts repository.

The Python code is shallowly embedded: each Python function that a claim
refers to is translated into an executable Lean definition operating on an
explicit model of its inputs (exception classes, directory listings, zip
member metadata, strings), and the claims are proved or refuted about those
definitions.
-/

/-! ### Exception model

Python exception classes relevant to fetch_artifacts.py.
PermissionError is a subclass of OSError, and the retry decorator
catches (PermissionError, OSError); any other class is not caught.
-/

/-- Model of the Python exception classes that fetch_artifacts.py
distinguishes: PermissionError, OSError (including its subclasses such as
IsADirectoryError / FileExistsError, which we collapse into osError), and
every other class (carrying its name). -/
inductive PyExc : Type where
  | permissionError : PyExc
  | osError : PyExc
  | other : String → PyExc
deriving DecidableEq

/-- Whether an exception is caught by the except (PermissionError, OSError)
clause of retry_on_permission_error. -/
def isRetryable : PyExc → Bool
  | PyExc.permissionError => true
  | PyExc.osError => true
  | PyExc.other _ => false

/-! ### retry_on_permission_error (fetch_artifacts.py lines 26-46)

The decorated operation is modelled as a function from the invocation
index (0-based) to its outcome.  The wrapper returns the final outcome
together with the number of invocations actually made.  The sleeps are
timing only and are not modelled.  The Python loop
  for attempt in range(max_attempts): try: return func() ...
is embedded with the remaining iteration count as structural fuel; the
fuel starts at max_attempts, so the fuel-exhausted case is exactly the
Python "return None" after the loop. -/

/-- One pass of the retry loop of retry_on_permission_error: remaining
iterations, current attempt index.  Returns the outcome (inl-style via
Except, with Option for the unreachable post-loop "return None") and the
total number of invocations of the wrapped operation. -/
def retryGo {α : Type} (op : Nat → Except PyExc α) (maxAttempts : Nat) :
    Nat → Nat → Except PyExc (Option α) × Nat
  | 0, attempt => (Except.ok none, attempt)
  | Nat.succ rem, attempt =>
    match op attempt with
    | Except.ok a => (Except.ok (some a), attempt + 1)
    | Except.error e =>
      if isRetryable e then
        if attempt = maxAttempts - 1 then (Except.error e, attempt + 1)
        else retryGo op maxAttempts rem (attempt + 1)
      else (Except.error e, attempt + 1)

/-- retry_on_permission_error(max_attempts)(op): run the retry loop from
attempt 0 with max_attempts iterations available. -/
def retry_on_permission_error {α : Type} (maxAttempts : Nat)
    (op : Nat → Except PyExc α) : Except PyExc (Option α) × Nat :=
  retryGo op maxAttempts maxAttempts 0

/-! ### fnmatch glob matching (Python fnmatch.fnmatch, POSIX case rules)

get_last_successful_run matches job and artifact names with
fnmatch.fnmatch(name, pattern).  The pattern language is modelled here:
a star matches any (possibly empty) substring, a question mark matches one
character, a bracketed class matches one character from the class (with
ranges, and negation by a leading exclamation mark; a right bracket first
in the class is literal; an unterminated class makes the left bracket a
literal character). -/

/-- Scan a character list for the closing right bracket of a class,
returning the class body and the remainder after the bracket; none if the
class is unterminated. -/
def splitAtClose : List Char → Option (List Char × List Char)
  | [] => none
  | c :: rest =>
    if c = ']' then some ([], rest)
    else
      match splitAtClose rest with
      | none => none
      | some (cls, rem) => some (c :: cls, rem)

/-- Parse a bracketed character class: the input is the character list just
after the opening left bracket.  Returns (negated, class body, remainder),
or none when the class is unterminated.  A leading exclamation mark negates;
a right bracket immediately after that is taken literally into the body. -/
def scanClass (p : List Char) : Option (Bool × List Char × List Char) :=
  let neg : Bool := decide (p.head? = some '!')
  let p1 := if neg then p.tail else p
  let leadRB : Bool := decide (p1.head? = some ']')
  let p2 := if leadRB then p1.tail else p1
  match splitAtClose p2 with
  | none => none
  | some (cls, rem) => some (neg, if leadRB then ']' :: cls else cls, rem)

/-- One token of a compiled glob pattern. -/
inductive GlobTok : Type where
  | star : GlobTok
  | qmark : GlobTok
  | lit : Char → GlobTok
  | cls : Bool → List Char → GlobTok
deriving DecidableEq

/-- Does a character class body (ranges expanded pairwise, a trailing or
leading dash being literal) match a character. -/
def classMatch : List Char → Char → Bool
  | [], _ => false
  | a :: '-' :: b :: rest, c => (decide (a ≤ c) && decide (c ≤ b)) || classMatch rest c
  | a :: rest, c => (a == c) || classMatch rest c

/-- Tokenizer for glob patterns, with the pattern length as structural
fuel (scanClass consumes at least one character, so fuel equal to the
initial length is always sufficient and the fuel-exhausted case is
unreachable). -/
def tokenizeFuel : Nat → List Char → List GlobTok
  | 0, _ => []
  | Nat.succ _, [] => []
  | Nat.succ fuel, c :: rest =>
    if c = '*' then GlobTok.star :: tokenizeFuel fuel rest
    else if c = '?' then GlobTok.qmark :: tokenizeFuel fuel rest
    else if c = '[' then
      match scanClass rest with
      | none => GlobTok.lit '[' :: tokenizeFuel fuel rest
      | some (neg, cls, rem) => GlobTok.cls neg cls :: tokenizeFuel fuel rem
    else GlobTok.lit c :: tokenizeFuel fuel rest

/-- Compile a glob pattern into tokens. -/
def tokenizeGlob (p : List Char) : List GlobTok := tokenizeFuel p.length p

/-- Try a predicate on a string and on each of its suffixes (used for the
star token, which may consume any prefix). -/
def trySuffixes (f : List Char → Bool) : List Char → Bool
  | [] => f []
  | c :: cs => f (c :: cs) || trySuffixes f cs

/-- Match a token list against a character list (anchored at both ends,
as fnmatch is). -/
def matchToks : List GlobTok → List Char → Bool
  | [], s => s.isEmpty
  | GlobTok.star :: ts, s => trySuffixes (matchToks ts) s
  | GlobTok.qmark :: ts, s =>
    match s with
    | [] => false
    | _ :: cs => matchToks ts cs
  | GlobTok.lit a :: ts, s =>
    match s with
    | [] => false
    | c :: cs => (a == c) && matchToks ts cs
  | GlobTok.cls neg cl :: ts, s =>
    match s with
    | [] => false
    | c :: cs => ((classMatch cl c) != neg) && matchToks ts cs

/-- fnmatch.fnmatch(name, pattern) with POSIX case handling. -/
def fnmatch (name pattern : String) : Bool :=
  matchToks (tokenizeGlob pattern.data) name.data

/-- Does the needle occur as a contiguous run at some position of the hay
(checked at every suffix). -/
def infixSearch (needle : List Char) : List Char → Bool
  | [] => needle.isPrefixOf ([] : List Char)
  | c :: cs => needle.isPrefixOf (c :: cs) || infixSearch needle cs

/-- Python substring containment: needle in hay. -/
def strContains (hay needle : String) : Bool :=
  infixSearch needle.data hay.data

/-- str.endswith(suffix), computed on the character lists. -/
def strEndsWith (s suffix : String) : Bool :=
  suffix.data.reverse.isPrefixOf s.data.reverse

/-- str.startswith(prefix), computed on the character lists. -/
def strStartsWith (s pre : String) : Bool :=
  pre.data.isPrefixOf s.data

/-- Python string slicing s[n:] by character count. -/
def strDrop (s : String) (n : Nat) : String := String.mk (s.data.drop n)

/-- str.lower() (ASCII range, which covers every artifact name the
pipeline produces), computed on the character lists. -/
def strLower (s : String) : String := String.mk (s.data.map Char.toLower)

/-- Lexicographic comparison of character lists by code point, the order
Python sorted() uses on strings. -/
def listLeChars : List Char → List Char → Bool
  | [], _ => true
  | _ :: _, [] => false
  | a :: as, b :: bs =>
    if a < b then true
    else if b < a then false
    else listLeChars as bs

/-- Python string comparison a <= b by code points. -/
def strLe (a b : String) : Bool := listLeChars a.data b.data

/-! ### Run selection (get_last_successful_run, fetch_artifacts.py 203-247)

A workflow run is modelled by the fields the selector reads: its
conclusion string, its jobs (each with a name) and its artifacts (each
with a name).  The provider returns runs most recent first; the selector
receives that list. -/

/-- A workflow job; only its name is read. -/
structure Job : Type where
  name : String
deriving DecidableEq

/-- A workflow artifact; only its name is read. -/
structure Artifact : Type where
  name : String
deriving DecidableEq

/-- A completed workflow run as seen by get_last_successful_run. -/
structure WorkflowRun : Type where
  conclusion : String
  jobs : List Job
  artifacts : List Artifact
deriving DecidableEq

/-- The run's jobs whose name matches the pattern (lines 222-224). -/
def matching_jobs (pattern : String) (run : WorkflowRun) : List Job :=
  run.jobs.filter (fun job => fnmatch job.name pattern)

/-- The names of the run's artifacts that match the pattern and occur as a
substring of at least one matching job's name (lines 228-235). -/
def matching_artifacts (pattern : String) (run : WorkflowRun) : List String :=
  (run.artifacts.filter (fun artifact =>
    fnmatch artifact.name pattern &&
      (matching_jobs pattern run).any (fun job => strContains job.name artifact.name))).map
    (fun artifact => artifact.name)

/-- The body of run_matches (lines 218-237): conclusion must be success,
at least one job must match, and the matching-job and matching-artifact
counts must be equal. -/
def run_matches (pattern : String) (run : WorkflowRun) : Bool :=
  if run.conclusion ≠ "success" then false
  else if (matching_jobs pattern run).length < 1 then false
  else (matching_jobs pattern run).length == (matching_artifacts pattern run).length

/-- get_last_successful_run: the first run of the (most recent first) list
accepted by run_matches, if any (lines 239-247). -/
def get_last_successful_run (pattern : String) (runs : List WorkflowRun) :
    Option WorkflowRun :=
  runs.find? (run_matches pattern)

/-- The acceptance criterion of run_matches, spelled as a proposition. -/
def acceptsRun (pattern : String) (run : WorkflowRun) : Prop :=
  run.conclusion = "success" ∧
    0 < (matching_jobs pattern run).length ∧
    (matching_jobs pattern run).length = (matching_artifacts pattern run).length

instance (pattern : String) (run : WorkflowRun) : Decidable (acceptsRun pattern run) := by
  unfold acceptsRun; infer_instance

/-! ### Directory model for download_and_unpack_artifact (lines 164-200)

A directory listing is a finite association list from entry names to
entries.  An entry is a regular file (which may itself be a recognized
tar- or zip-family archive, in which case it carries its payload listing)
or a subdirectory.  Names within one real directory are unique; theorems
that need that carry it as a hypothesis. -/

/-- A directory entry: a file (with some payload when the file is a
recognized tar/zip archive and none otherwise) or a directory. -/
inductive Entry : Type where
  | file : Option (List (String × Entry)) → Entry
  | dir : List (String × Entry) → Entry

/-- Does a listing contain the given name. -/
def hasKey (l : List (String × Entry)) (n : String) : Bool :=
  l.any (fun p => p.1 == n)

/-- Look up the entry stored under a name. -/
def lookupKey (l : List (String × Entry)) (n : String) : Option Entry :=
  (l.find? (fun p => p.1 == n)).map (fun p => p.2)

/-- Remove the entry stored under a name (Path.unlink / Path.rmdir). -/
def eraseKey (n : String) (l : List (String × Entry)) : List (String × Entry) :=
  l.filter (fun p => p.1 != n)

/-- Write an entry under a name, replacing an existing entry of that name
(extraction overwrites an existing path). -/
def setKey (l : List (String × Entry)) (n : String) (e : Entry) :
    List (String × Entry) :=
  if hasKey l n then l.map (fun p => if p.1 == n then (n, e) else p) else l ++ [(n, e)]

/-- Write a whole payload listing into a directory, member by member in
order (tarfile.extractall / the zipfile member loop). -/
def overwriteAll (l : List (String × Entry)) (payload : List (String × Entry)) :
    List (String × Entry) :=
  payload.foldl (fun acc p => setKey acc p.1 p.2) l

/-- is_tar_or_zip_file (line 98-99): tarfile.is_tarfile / zipfile.is_zipfile
on a regular file answer whether it is a recognized archive; on a
directory, opening the path for reading raises IsADirectoryError (an
OSError), which neither detector catches. -/
def is_tar_or_zip_file : Entry → Except PyExc Bool
  | Entry.file (some _) => Except.ok true
  | Entry.file none => Except.ok false
  | Entry.dir _ => Except.error PyExc.osError

/-- The nested-archive flattening step of download_and_unpack_artifact
(lines 179-181): when the artifact directory holds exactly one entry and
that entry is a tar/zip archive, extract it in place (the payload is
written into the directory, overwriting on name collision as the
underlying extractors do for file entries) and then unlink the archive
file. -/
def flattenNestedArchive (children : List (String × Entry)) :
    Except PyExc (List (String × Entry)) :=
  match children with
  | [(name, entry)] =>
    match is_tar_or_zip_file entry with
    | Except.error e => Except.error e
    | Except.ok true =>
      match entry with
      | Entry.file (some payload) =>
        Except.ok (eraseKey name (overwriteAll children payload))
      | _ => Except.ok children
    | Except.ok false => Except.ok children
  | _ => Except.ok children

/-- One Path.rename of an entry into a destination directory: os.rename
fails with an OSError when the destination path already exists as a
directory (and the only possible pre-existing destination during
single-subdirectory flattening is a directory: the wrapping directory
itself). -/
def rename_entry (parent : List (String × Entry)) (n : String) (e : Entry) :
    Except PyExc (List (String × Entry)) :=
  if hasKey parent n then Except.error PyExc.osError
  else Except.ok (parent ++ [(n, e)])

/-- move_entry (lines 189-192): the rename wrapped in
retry_on_permission_error with the default five attempts. -/
def move_entry (parent : List (String × Entry)) (n : String) (e : Entry) :
    Except PyExc (List (String × Entry)) :=
  match retry_on_permission_error 5 (fun _ => rename_entry parent n e) with
  | (Except.ok (some p), _) => Except.ok p
  | (Except.ok none, _) => Except.error (PyExc.other "unreachable")
  | (Except.error err, _) => Except.error err

/-- The move loop of lines 187-192: move each child of the wrapping
subdirectory into the artifact directory, stopping at the first failure. -/
def moveChildren (parent : List (String × Entry)) :
    List (String × Entry) → Except PyExc (List (String × Entry))
  | [] => Except.ok parent
  | (n, e) :: rest =>
    match move_entry parent n e with
    | Except.ok p => moveChildren p rest
    | Except.error err => Except.error err

/-- The single-subdirectory flattening step of download_and_unpack_artifact
(lines 185-198): when the artifact directory holds exactly one entry and
that entry is a directory, move each of its children up (each move
retried), then rmdir the wrapping directory (it is empty once all moves
succeeded). -/
def flattenSingleSubdir (children : List (String × Entry)) :
    Except PyExc (List (String × Entry)) :=
  match children with
  | [(wrapName, Entry.dir sub)] =>
    match moveChildren [(wrapName, Entry.dir sub)] sub with
    | Except.ok p => Except.ok (eraseKey wrapName p)
    | Except.error err => Except.error err
  | _ => Except.ok children

/-- The post-extraction normalization of download_and_unpack_artifact
(lines 177-198): nested-archive flattening, then single-subdirectory
flattening, each applied exactly once. -/
def normalize_artifact_dir (children : List (String × Entry)) :
    Except PyExc (List (String × Entry)) :=
  match flattenNestedArchive children with
  | Except.error e => Except.error e
  | Except.ok c1 => flattenSingleSubdir c1

/-! ### unpack_and_delete_archive dispatch and deletion (lines 102-161) -/

/-- A downloaded file on disk, as the format dispatch sees it: which
detectors recognize it, and its payload listing. -/
structure DiskFile : Type where
  isTar : Bool
  isZip : Bool
  payload : List (String × Entry)

/-- Trace of one unpack_and_delete_archive call: which extraction branch
ran, whether the input file was unlinked, and the failure message if the
assert fired. -/
structure UnpackRun : Type where
  ranUntar : Bool
  ranUnzip : Bool
  deletedInput : Bool
  failure : Option String
deriving DecidableEq

/-- The format dispatch of unpack_and_delete_archive (lines 153-160):
tar-family first, zip-family second, otherwise the assert fires (before
the unlink, so the input file survives). -/
def unpack_and_delete_archive (f : DiskFile) : UnpackRun :=
  if f.isTar then
    { ranUntar := true, ranUnzip := false, deletedInput := true, failure := none }
  else if f.isZip then
    { ranUntar := false, ranUnzip := true, deletedInput := true, failure := none }
  else
    { ranUntar := false, ranUnzip := false, deletedInput := false,
      failure := some "file_path is not a tar or zip file!" }

/-! ### Destination-creation semantics (claims about re-running)

_download_artifact line 76 creates the archive file with
Path.touch(exist_ok=False).  unpack_and_delete_archive lines 105-109
creates the destination directory: exclusively (parents=False,
exist_ok=False) when no destination was passed, but tolerantly
(parents=True, exist_ok=True) when the caller supplied one —
and download_and_unpack_artifact (line 174) always supplies one. -/

/-- Path.touch(exist_ok=False) for the downloaded archive file. -/
def download_touch (fileExists : Bool) : Except String Unit :=
  if fileExists then Except.error "FileExistsError" else Except.ok ()

/-- The destination mkdir of unpack_and_delete_archive: explicitDest says
whether the caller passed dest_dir. -/
def unpack_dest_mkdir (explicitDest destExists : Bool) : Except String Unit :=
  if explicitDest then Except.ok ()
  else if destExists then Except.error "FileExistsError"
  else Except.ok ()

/-- The creation of the artifact's extraction directory as performed by the
pipeline: download_and_unpack_artifact always passes an explicit dest_dir. -/
def pipeline_extract_mkdir (destExists : Bool) : Except String Unit :=
  unpack_dest_mkdir true destExists

/-! ### Zip member extraction (the unzip closure, lines 115-151)

One zip member is processed at a time.  Its stored Unix attributes are the
upper 16 bits of the external-attributes field; the symlink test is
stat.S_ISLNK.  The platform is a parameter: the value of os.name, whether
os.symlink succeeds (it raises OSError on Windows without privilege), and
whether os.chmod succeeds. -/

/-- stat.S_ISLNK: the file-type bits (mask 0o170000) equal S_IFLNK
(0o120000). -/
def S_ISLNK (m : Nat) : Bool := (m &&& 0o170000) == 0o120000

/-- A zip member as read by the unzip loop: its name, the raw 32-bit
external-attributes field, and its content (for a symlink entry the
content is the link target; it is modelled post-UTF-8-decoding). -/
structure ZipMember : Type where
  filename : String
  external_attr : Nat
  content : String
deriving DecidableEq

/-- What extraction leaves at the member's target path. -/
inductive FsNode : Type where
  | symlink : String → FsNode
  | regular : String → FsNode
deriving DecidableEq

/-- Trace of processing one zip member: the node created, the
target_is_directory hint passed to os.symlink (only on Windows, only for
symlink members), the mode passed to os.chmod (none when chmod was not
called), and the exception escaping the member's processing (none: the
loop continues to the next member). -/
structure MemberOutcome : Type where
  node : FsNode
  dirHint : Option Bool
  chmodCall : Option Nat
  raised : Option PyExc
deriving DecidableEq

/-- Processing of one member of the zip archive (lines 117-151).
osName is os.name; symlinkOk is whether os.symlink succeeds on this
platform/privilege; chmodOk is whether os.chmod succeeds on this
filesystem. -/
def processMember (osName : String) (symlinkOk chmodOk : Bool)
    (info : ZipMember) : MemberOutcome :=
  let attr := info.external_attr >>> 16
  if S_ISLNK attr then
    let link_target := info.content
    if osName = "nt" then
      let is_dir := strEndsWith link_target "/" || strEndsWith link_target "\\"
      if symlinkOk then
        { node := FsNode.symlink link_target, dirHint := some is_dir,
          chmodCall := none, raised := none }
      else
        { node := FsNode.regular link_target, dirHint := some is_dir,
          chmodCall := none, raised := none }
    else
      if symlinkOk then
        { node := FsNode.symlink link_target, dirHint := none,
          chmodCall := none, raised := none }
      else
        { node := FsNode.regular link_target, dirHint := none,
          chmodCall := none, raised := none }
  else
    if attr ≠ 0 then
      { node := FsNode.regular info.content, dirHint := none,
        chmodCall := some attr, raised := none }
    else
      { node := FsNode.regular info.content, dirHint := none,
        chmodCall := none, raised := none }

/-- The whole unzip member loop: every member of the archive is processed
in order (a tolerated chmod failure never aborts the loop). -/
def unzipMembers (osName : String) (symlinkOk chmodOk : Bool)
    (members : List ZipMember) : List MemberOutcome :=
  members.map (processMember osName symlinkOk chmodOk)

/-! ### Manifest generation (.github/scripts/generate_manifest.py)

find_onnxruntime_library, get_extra_files, find_lib_directory,
get_files_in_directory and strip_version_prefix are pure string
functions and are embedded directly.  Python set iteration is modelled by
list order. -/

/-- The fixed tuple of expected main-library basenames
(find_onnxruntime_library, lines 52-62). -/
def expected_ort_names : List String :=
  ["onnxruntime_sx.dll", "onnxruntime_sxd.dll",
   "libonnxruntime_sx.so", "libonnxruntime_sxd.so",
   "libonnxruntime_sx.dylib", "libonnxruntime_sxd.dylib",
   "onnxruntime.lib", "onnxruntimed.lib",
   "libonnxruntime.a", "libonnxruntimed.a"]

/-- find_onnxruntime_library (lines 49-64): the first file equal to one of
the expected names, if any. -/
def find_onnxruntime_library (files : List String) : Option String :=
  files.find? (fun f => expected_ort_names.contains f)

/-- f.endswith((".dll", ".so", ".dylib", ".pdb")). -/
def has_lib_extension (f : String) : Bool :=
  strEndsWith f ".dll" || strEndsWith f ".so" || strEndsWith f ".dylib" ||
    strEndsWith f ".pdb"

/-- ".so." in f. -/
def has_so_infix (f : String) : Bool :=
  strContains f ".so."

/-- get_extra_files (lines 67-81): every file other than the main library
with a known extension or a versioned shared-object infix, sorted
(Python's sorted over code points; under a linear order the sorted
permutation is unique, so stable merge sort and insertion sort agree). -/
def get_extra_files (files : List String) (ort_library : String) : List String :=
  List.insertionSort (fun a b => strLe a b = true)
    (files.filter (fun f => f != ort_library && (has_lib_extension f || has_so_infix f)))

/-- find_lib_directory (lines 25-33): bin first, then lib. -/
def find_lib_directory (files : List String) : Option String :=
  if files.any (fun f => strStartsWith f "onnxruntime/bin/") then some "onnxruntime/bin"
  else if files.any (fun f => strStartsWith f "onnxruntime/lib/") then some "onnxruntime/lib"
  else none

/-- get_files_in_directory (lines 36-46): the names directly inside the
directory (nonempty remainder containing no slash after stripping the
directory prefix). -/
def get_files_in_directory (files : List String) (directory : String) : List String :=
  files.filterMap (fun f =>
    let dirPrefix := directory.data ++ ['/']
    if dirPrefix.isPrefixOf f.data then
      let relative := f.data.drop dirPrefix.length
      if !relative.isEmpty && !relative.contains '/' then some (String.mk relative)
      else none
    else none)

/-- Python str.split(sep, maxsplit) on a single character separator,
accumulator-based: fuel is the number of splits still allowed. -/
def pySplitAux (sep : Char) : Nat → List Char → List Char → List (List Char)
  | _, acc, [] => [acc.reverse]
  | 0, acc, rest => [acc.reverse ++ rest]
  | Nat.succ n, acc, c :: cs =>
    if c = sep then acc.reverse :: pySplitAux sep n [] cs
    else pySplitAux sep (Nat.succ n) (c :: acc) cs

/-- artifact_name.split("-", 2). -/
def pySplitDash2 (s : String) : List String :=
  (pySplitAux '-' 2 [] s.data).map (fun cs => String.mk cs)

/-- strip_version_prefix (lines 123-130): drop the leading
ort-version- when the stem splits into at least three parts whose first
is ort. -/
def strip_version_pre (artifact_name : String) : String :=
  let parts := pySplitDash2 artifact_name
  if 3 ≤ parts.length ∧ parts.getD 0 "" = "ort" then parts.getD 2 ""
  else artifact_name

/-- The manifest key of an archive stem (main, line 160):
strip_version_prefix(stem).lower(). -/
def manifest_key (stem : String) : String :=
  strLower (strip_version_pre stem)

/-- Intercalate a dash between the split parts (used to state that the
parts reassemble to the original stem). -/
def joinDash : List (List Char) → List Char
  | [] => []
  | [x] => x
  | x :: y :: rest => x ++ '-' :: joinDash (y :: rest)

/-- Skipping lemma: while every attempt in [attempt, attempt+n) raises a
retryable exception and attempt+n is at most max_attempts-1 = 4, the retry
loop at max_attempts = 5 advances from attempt to attempt+n. -/
theorem retryGo_skip {α : Type} (op : Nat → Except PyExc α) :
    ∀ (n attempt : Nat), attempt + n ≤ 4 →
    (∀ k, attempt ≤ k → k < attempt + n → ∃ e, op k = Except.error e ∧ isRetryable e = true) →
    retryGo op 5 (5 - attempt) attempt = retryGo op 5 (5 - (attempt + n)) (attempt + n) := by
  intro n
  induction n with
  | zero => intro attempt _ _; rfl
  | succ m ih =>
    intro attempt hle herr
    obtain ⟨e, he, hr⟩ := herr attempt (Nat.le_refl _) (by omega)
    have h5 : 5 - attempt = Nat.succ (4 - attempt) := by omega
    rw [h5]
    show (match op attempt with
      | Except.ok a => (Except.ok (some a), attempt + 1)
      | Except.error e =>
        if isRetryable e then
          if attempt = 5 - 1 then (Except.error e, attempt + 1)
          else retryGo op 5 (4 - attempt) (attempt + 1)
        else (Except.error e, attempt + 1)) = _
    rw [he]
    simp only [hr, if_true]
    have hne : ¬ (attempt = 5 - 1) := by omega
    rw [if_neg hne]
    have h4 : 4 - attempt = 5 - (attempt + 1) := by omega
    rw [h4]
    have hrec := ih (attempt + 1) (by omega) (fun k hk1 hk2 => herr k (by omega) (by omega))
    have harr : attempt + 1 + m = attempt + (m + 1) := by omega
    rw [hrec, harr]

/-- C2: for a wrapped operation failing retryably on its first N
invocations, retry_on_permission_error with max_attempts = 5 returns the
successful result of invocation N (zero-based; the (N+1)-st call) when
N < 5, raises the exception of the final (fifth) failed attempt when
N is at least 5, and propagates a non-retryable exception immediately,
after exactly N+1 invocations. -/
theorem c2_retry_on_permission_error {α : Type} (op : Nat → Except PyExc α) (N : Nat)
    (herr : ∀ k, k < N → ∃ e, op k = Except.error e ∧ isRetryable e = true) :
    (∀ a, op N = Except.ok a →
      (N < 5 → retry_on_permission_error 5 op = (Except.ok (some a), N + 1)) ∧
      (5 ≤ N → ∃ e, op 4 = Except.error e ∧
        retry_on_permission_error 5 op = (Except.error e, 5))) ∧
    (∀ e, op N = Except.error e → isRetryable e = false → N < 5 →
      retry_on_permission_error 5 op = (Except.error e, N + 1)) := by
  constructor
  · intro a ha
    constructor
    · intro hN5
      have hskip := retryGo_skip op N 0 (by omega)
        (fun k _ hk => herr k (by omega))
      simp only [Nat.zero_add, Nat.sub_zero] at hskip
      have h5N : 5 - N = (4 - N) + 1 := by omega
      rw [h5N] at hskip
      unfold retry_on_permission_error
      rw [hskip]
      simp [retryGo, ha]
    · intro h5N
      have hskip := retryGo_skip op 4 0 (by omega)
        (fun k _ hk => herr k (by omega))
      simp only [Nat.zero_add, Nat.sub_zero] at hskip
      obtain ⟨e, he, hr⟩ := herr 4 (by omega)
      refine ⟨e, he, ?_⟩
      unfold retry_on_permission_error
      rw [hskip]
      simp [retryGo, he, hr]
  · intro e he hnr hN5
    have hskip := retryGo_skip op N 0 (by omega)
      (fun k _ hk => herr k (by omega))
    simp only [Nat.zero_add, Nat.sub_zero] at hskip
    have h5N : 5 - N = (4 - N) + 1 := by omega
    rw [h5N] at hskip
    unfold retry_on_permission_error
    rw [hskip]
    simp [retryGo, he, hnr]

/-- C2 witness: an operation failing twice with PermissionError then
succeeding is retried to success in three invocations. -/
theorem c2_witness :
    retry_on_permission_error 5
      (fun k => if k < 2 then Except.error PyExc.permissionError else Except.ok 7) =
      (Except.ok (some 7), 3) := by
  have h := (c2_retry_on_permission_error
    (fun k => if k < 2 then Except.error PyExc.permissionError else Except.ok 7) 2
    (fun k hk => ⟨PyExc.permissionError, by simp [hk], rfl⟩)).1 7 (by simp)
  exact h.1 (by omega)

/-- C6: a file recognized by neither the tar-family nor the zip-family
detector makes unpack_and_delete_archive fail with the not-an-archive
assertion; neither extraction branch runs and the input file is not
deleted. -/
theorem c6_unpack_not_an_archive (f : DiskFile)
    (htar : f.isTar = false) (hzip : f.isZip = false) :
    unpack_and_delete_archive f =
      { ranUntar := false, ranUnzip := false, deletedInput := false,
        failure := some "file_path is not a tar or zip file!" } := by
  simp [unpack_and_delete_archive, htar, hzip]

/-- C6 witness: a concrete non-archive file. -/
theorem c6_witness :
    unpack_and_delete_archive { isTar := false, isZip := false, payload := [] } =
      { ranUntar := false, ranUnzip := false, deletedInput := false,
        failure := some "file_path is not a tar or zip file!" } :=
  c6_unpack_not_an_archive { isTar := false, isZip := false, payload := [] } rfl rfl

/-- C7 counterexample: the pipeline always passes an explicit dest_dir to
unpack_and_delete_archive, whose destination mkdir then runs with
parents=True, exist_ok=True — so re-running into an existing populated
extraction directory succeeds (merging into it) instead of failing with
exclusive-create semantics as claimed. -/
theorem c7_counterexample : pipeline_extract_mkdir true = Except.ok () := rfl

/-- C7 amended: the downloaded archive file is created with exclusive
Path.touch(exist_ok=False) and fails if the file already exists, and an
unspecified destination directory is created with exclusive
mkdir(parents=False, exist_ok=False) and fails if it already exists; but
the pipeline's artifact extraction directory is created with
exist_ok=True, so an existing populated extraction directory is merged
into rather than rejected. -/
theorem c7_amended_exclusive_create :
    download_touch true = Except.error "FileExistsError" ∧
    download_touch false = Except.ok () ∧
    unpack_dest_mkdir false true = Except.error "FileExistsError" ∧
    unpack_dest_mkdir false false = Except.ok () ∧
    pipeline_extract_mkdir true = Except.ok () :=
  ⟨rfl, rfl, rfl, rfl, rfl⟩

/-- The boolean run_matches decides the acceptance proposition. -/
theorem run_matches_eq_true_iff (pattern : String) (r : WorkflowRun) :
    run_matches pattern r = true ↔ acceptsRun pattern r := by
  unfold run_matches acceptsRun
  by_cases h1 : r.conclusion = "success"
  · by_cases h2 : (matching_jobs pattern r).length < 1
    · simp [h1, h2]
      omega
    · simp [h1, h2]
      omega
  · simp [h1]

/-- C1: get_last_successful_run returns the first run of the list (most
recent first) whose conclusion is success, which has at least one
pattern-matching job, and whose matching-job count equals the count of
artifacts matching the pattern and occurring as a substring of a matching
job's name; it returns none exactly when no run qualifies, so it never
returns a run where the two counts differ. -/
theorem c1_get_last_successful_run (pattern : String) (runs : List WorkflowRun) :
    (∀ r, get_last_successful_run pattern runs = some r →
      acceptsRun pattern r ∧
      ∃ pre post, runs = pre ++ r :: post ∧ ∀ r2 ∈ pre, ¬ acceptsRun pattern r2) ∧
    (get_last_successful_run pattern runs = none ↔
      ∀ r ∈ runs, ¬ acceptsRun pattern r) := by
  induction runs with
  | nil =>
    constructor
    · intro r h
      simp [get_last_successful_run] at h
    · simp [get_last_successful_run]
  | cons a rs ih =>
    by_cases ha : run_matches pattern a = true
    · have hfind : get_last_successful_run pattern (a :: rs) = some a := by
        simp [get_last_successful_run, List.find?_cons_of_pos _ ha]
      constructor
      · intro r h
        rw [hfind] at h
        obtain rfl : a = r := by injection h
        refine ⟨(run_matches_eq_true_iff pattern a).mp ha, [], rs, rfl, ?_⟩
        intro r2 hr2
        simp at hr2
      · rw [hfind]
        constructor
        · intro h
          exact absurd h (by simp)
        · intro hall
          exact absurd ((run_matches_eq_true_iff pattern a).mp ha)
            (hall a (List.mem_cons_self a rs))
    · have hfind : get_last_successful_run pattern (a :: rs) =
          get_last_successful_run pattern rs := by
        simp [get_last_successful_run,
          List.find?_cons_of_neg _ (by simpa using ha)]
      constructor
      · intro r h
        rw [hfind] at h
        obtain ⟨hacc, pre, post, heq, hpre⟩ := ih.1 r h
        refine ⟨hacc, a :: pre, post, by rw [heq]; rfl, ?_⟩
        intro r2 hr2
        rcases List.mem_cons.mp hr2 with h2 | h2
        · subst h2
          exact fun hacc2 => ha ((run_matches_eq_true_iff pattern r2).mpr hacc2)
        · exact hpre r2 h2
      · rw [hfind]
        constructor
        · intro hnone r hr
          rcases List.mem_cons.mp hr with h2 | h2
          · subst h2
            exact fun hacc2 => ha ((run_matches_eq_true_iff pattern r).mpr hacc2)
          · exact ih.2.mp hnone r h2
        · intro hall
          exact ih.2.mpr (fun r hr => hall r (List.mem_cons_of_mem a hr))

/-- C1 witness: on a fixture with two succeeded jobs both of which
uploaded their artifact, the run is returned and accepted; dropping one
artifact makes the selector return none. -/
theorem c1_witness :
    get_last_successful_run "*"
      [⟨"success", [⟨"build-linux"⟩, ⟨"build-windows"⟩],
        [⟨"build-linux"⟩, ⟨"build-windows"⟩]⟩] =
      some ⟨"success", [⟨"build-linux"⟩, ⟨"build-windows"⟩],
        [⟨"build-linux"⟩, ⟨"build-windows"⟩]⟩ ∧
    acceptsRun "*" ⟨"success", [⟨"build-linux"⟩, ⟨"build-windows"⟩],
      [⟨"build-linux"⟩, ⟨"build-windows"⟩]⟩ ∧
    get_last_successful_run "*"
      [⟨"success", [⟨"build-linux"⟩, ⟨"build-windows"⟩], [⟨"build-linux"⟩]⟩] =
      none := by
  refine ⟨rfl, ?_, ?_⟩
  · exact ((c1_get_last_successful_run "*"
      [⟨"success", [⟨"build-linux"⟩, ⟨"build-windows"⟩],
        [⟨"build-linux"⟩, ⟨"build-windows"⟩]⟩]).1 _ rfl).1
  · exact (c1_get_last_successful_run "*"
      [⟨"success", [⟨"build-linux"⟩, ⟨"build-windows"⟩], [⟨"build-linux"⟩]⟩]).2.mpr
      (by
        intro r hr
        rcases List.mem_cons.mp hr with h2 | h2
        · subst h2
          intro hacc
          exact absurd ((run_matches_eq_true_iff _ _).mpr hacc) (by decide)
        · simp at h2)


/-- Membership check on a cons cell. -/
theorem hasKey_cons (p : String × Entry) (l : List (String × Entry)) (n : String) :
    hasKey (p :: l) n = ((p.1 == n) || hasKey l n) := rfl

/-- Membership check on an append. -/
theorem hasKey_append (l1 l2 : List (String × Entry)) (n : String) :
    hasKey (l1 ++ l2) n = (hasKey l1 n || hasKey l2 n) := by
  simp [hasKey, List.any_append]

/-- The name unlinked by eraseKey is gone afterwards. -/
theorem hasKey_eraseKey_self (n : String) (l : List (String × Entry)) :
    hasKey (eraseKey n l) n = false := by
  induction l with
  | nil => rfl
  | cons p l ih =>
    by_cases hp : p.1 = n
    · have hd : eraseKey n (p :: l) = eraseKey n l := by
        simp [eraseKey, List.filter_cons, hp]
      rw [hd]
      exact ih
    · have hd : eraseKey n (p :: l) = p :: eraseKey n l := by
        simp [eraseKey, List.filter_cons, hp]
      rw [hd, hasKey_cons, ih]
      simp [hp]


/-- Lookup on a cons cell. -/
theorem lookupKey_cons (p : String × Entry) (l : List (String × Entry)) (n : String) :
    lookupKey (p :: l) n = if p.1 == n then some p.2 else lookupKey l n := by
  unfold lookupKey
  rw [List.find?_cons]
  cases hb : (p.1 == n) with
  | true => simp
  | false => simp

/-- eraseKey leaves lookups of other names unchanged. -/
theorem lookupKey_eraseKey_other (n n2 : String) (l : List (String × Entry))
    (hne : n2 ≠ n) : lookupKey (eraseKey n l) n2 = lookupKey l n2 := by
  induction l with
  | nil => rfl
  | cons p l ih =>
    by_cases hp : p.1 = n
    · rw [show eraseKey n (p :: l) = eraseKey n l from by
        simp [eraseKey, List.filter_cons, hp]]
      rw [ih, lookupKey_cons, if_neg (show ¬ ((p.1 == n2) : Bool) = true by
        simp only [beq_iff_eq]
        intro h2
        rw [hp] at h2
        exact hne h2.symm)]
    · rw [show eraseKey n (p :: l) = p :: eraseKey n l from by
        simp [eraseKey, List.filter_cons, hp]]
      rw [lookupKey_cons, lookupKey_cons, ih]

/-- Lookup after the in-place overwrite branch of setKey. -/
theorem lookupKey_map_set (l : List (String × Entry)) (m : String) (f : Entry)
    (h : hasKey l m = true) :
    lookupKey (l.map (fun p => if p.1 == m then (m, f) else p)) m = some f := by
  induction l with
  | nil => simp [hasKey] at h
  | cons p l ih =>
    rw [List.map_cons]
    by_cases hp : p.1 = m
    · rw [if_pos (show ((p.1 == m) : Bool) = true by simpa using hp)]
      rw [lookupKey_cons, if_pos (by simp)]
    · rw [if_neg (show ¬ ((p.1 == m) : Bool) = true by simpa using hp)]
      have hl : hasKey l m = true := by
        rw [hasKey_cons] at h
        simpa [show ((p.1 == m) : Bool) = false by simpa using hp] using h
      rw [lookupKey_cons, if_neg (show ¬ ((p.1 == m) : Bool) = true by simpa using hp)]
      exact ih hl

/-- Lookup after the append branch of setKey. -/
theorem lookupKey_append_single (l : List (String × Entry)) (m : String) (f : Entry)
    (h : hasKey l m = false) : lookupKey (l ++ [(m, f)]) m = some f := by
  induction l with
  | nil =>
    rw [List.nil_append, lookupKey_cons, if_pos (by simp)]
  | cons p l ih =>
    rw [hasKey_cons] at h
    have hp : ((p.1 == m) : Bool) = false := (Bool.or_eq_false_iff.mp h).1
    have hl : hasKey l m = false := (Bool.or_eq_false_iff.mp h).2
    rw [List.cons_append, lookupKey_cons, if_neg (by simp [hp])]
    exact ih hl

/-- setKey stores the entry under the written name. -/
theorem lookupKey_setKey_self (l : List (String × Entry)) (m : String) (f : Entry) :
    lookupKey (setKey l m f) m = some f := by
  unfold setKey
  by_cases h : hasKey l m = true
  · rw [if_pos h]
    exact lookupKey_map_set l m f h
  · rw [if_neg h]
    exact lookupKey_append_single l m f (Bool.eq_false_iff.mpr h)

/-- The in-place overwrite branch of setKey leaves other lookups alone. -/
theorem lookupKey_map_set_other (l : List (String × Entry)) (m n : String) (f : Entry)
    (hne : n ≠ m) :
    lookupKey (l.map (fun p => if p.1 == m then (m, f) else p)) n = lookupKey l n := by
  induction l with
  | nil => rfl
  | cons p l ih =>
    rw [List.map_cons]
    by_cases hp : p.1 = m
    · rw [if_pos (show ((p.1 == m) : Bool) = true by simpa using hp)]
      have h1 : ¬ ((m == n) : Bool) = true := by
        simpa using fun h2 : m = n => hne h2.symm
      have h2 : ¬ ((p.1 == n) : Bool) = true := by rw [hp]; exact h1
      rw [lookupKey_cons, lookupKey_cons, if_neg h1, if_neg h2]
      exact ih
    · rw [if_neg (show ¬ ((p.1 == m) : Bool) = true by simpa using hp)]
      rw [lookupKey_cons, lookupKey_cons, ih]

/-- The append branch of setKey leaves other lookups alone. -/
theorem lookupKey_append_single_other (l : List (String × Entry)) (m n : String)
    (f : Entry) (hne : n ≠ m) : lookupKey (l ++ [(m, f)]) n = lookupKey l n := by
  induction l with
  | nil =>
    rw [List.nil_append, lookupKey_cons, if_neg (show ¬ ((m == n) : Bool) = true by
      simpa using fun h2 : m = n => hne h2.symm)]
  | cons p l ih =>
    rw [List.cons_append, lookupKey_cons, lookupKey_cons, ih]

/-- setKey leaves lookups of other names unchanged. -/
theorem lookupKey_setKey_other (l : List (String × Entry)) (m n : String) (f : Entry)
    (hne : n ≠ m) : lookupKey (setKey l m f) n = lookupKey l n := by
  unfold setKey
  by_cases h : hasKey l m = true
  · rw [if_pos h]
    exact lookupKey_map_set_other l m n f hne
  · rw [if_neg h]
    exact lookupKey_append_single_other l m n f hne

/-- Writing a payload none of whose names is n leaves the lookup of n
unchanged. -/
theorem lookupKey_overwriteAll_not_mem (payload : List (String × Entry)) :
    ∀ (l : List (String × Entry)) (n : String), (∀ q ∈ payload, q.1 ≠ n) →
    lookupKey (overwriteAll l payload) n = lookupKey l n := by
  induction payload with
  | nil => intro l n _; rfl
  | cons q rest ih =>
    intro l n hall
    have hstep : overwriteAll l (q :: rest) = overwriteAll (setKey l q.1 q.2) rest := rfl
    rw [hstep, ih (setKey l q.1 q.2) n (fun q2 hq2 => hall q2 (List.mem_cons_of_mem q hq2))]
    exact lookupKey_setKey_other l q.1 n q.2
      (fun h2 => hall q (List.mem_cons_self q rest) h2.symm)

/-- Writing a payload with duplicate-free names makes each of its pairs
retrievable afterwards. -/
theorem lookupKey_overwriteAll_mem (payload : List (String × Entry)) :
    ∀ (l : List (String × Entry)) (n : String) (e : Entry),
    (payload.map Prod.fst).Nodup → (n, e) ∈ payload →
    lookupKey (overwriteAll l payload) n = some e := by
  induction payload with
  | nil => intro l n e _ hmem; simp at hmem
  | cons q rest ih =>
    intro l n e hnodup hmem
    have hstep : overwriteAll l (q :: rest) = overwriteAll (setKey l q.1 q.2) rest := rfl
    rw [hstep]
    rw [List.map_cons, List.nodup_cons] at hnodup
    rcases List.mem_cons.mp hmem with h2 | h2
    · subst h2
      have hnotin : ∀ q2 ∈ rest, q2.1 ≠ n := by
        intro q2 hq2m heq
        have hm : q2.1 ∈ rest.map Prod.fst := List.mem_map_of_mem Prod.fst hq2m
        rw [heq] at hm
        exact hnodup.1 hm
      rw [lookupKey_overwriteAll_not_mem rest _ n hnotin]
      exact lookupKey_setKey_self l n e
    · exact ih (setKey l q.1 q.2) n e hnodup.2 h2

/-- C3: the nested-archive unwrapping step fires exactly when the artifact
directory holds one single entry which is a tar/zip archive file: then the
payload is extracted in place (each payload name other than the archive's
resolving to its payload entry) and the archive file is unlinked.  A
directory with zero or at least two entries is left unchanged, a single
non-archive file leaves it unchanged, a single directory entry makes the
archive probe raise IsADirectoryError, and the step is never re-applied:
even when its result would itself qualify, the pipeline keeps that result
as is. -/
theorem c3_nested_archive_flattening (children : List (String × Entry)) :
    (∀ name payload, children = [(name, Entry.file (some payload))] →
      flattenNestedArchive children =
        Except.ok (eraseKey name (overwriteAll children payload)) ∧
      hasKey (eraseKey name (overwriteAll children payload)) name = false ∧
      (∀ n e, (payload.map Prod.fst).Nodup → (n, e) ∈ payload → n ≠ name →
        lookupKey (eraseKey name (overwriteAll children payload)) n = some e)) ∧
    (∀ name, children = [(name, Entry.file none)] →
      flattenNestedArchive children = Except.ok children) ∧
    (children.length ≠ 1 → flattenNestedArchive children = Except.ok children) ∧
    (∀ name sub, children = [(name, Entry.dir sub)] →
      flattenNestedArchive children = Except.error PyExc.osError) ∧
    (∀ c1 n p, flattenNestedArchive children = Except.ok c1 →
      c1 = [(n, Entry.file (some p))] →
      normalize_artifact_dir children = Except.ok c1) := by
  refine ⟨?_, ?_, ?_, ?_, ?_⟩
  · intro name payload hch
    subst hch
    refine ⟨rfl, hasKey_eraseKey_self _ _, ?_⟩
    intro n e hnodup hmem hne
    rw [lookupKey_eraseKey_other name n _ hne]
    exact lookupKey_overwriteAll_mem payload _ n e hnodup hmem
  · intro name hch
    subst hch
    rfl
  · intro hlen
    match children with
    | [] => rfl
    | [(n1, e1)] => simp at hlen
    | p :: q :: rest => rfl
  · intro name sub hch
    subst hch
    rfl
  · intro c1 n p hok hc1
    unfold normalize_artifact_dir
    rw [hok, hc1]
    rfl

/-- C3 witness: a directory holding only payload.tar.gz is flattened to
the tarball's payload; the tarball itself is gone and the payload entry is
present. -/
theorem c3_witness :
    flattenNestedArchive
      [("payload.tar.gz", Entry.file (some [("a", Entry.file none)]))] =
      Except.ok [("a", Entry.file none)] ∧
    hasKey [("a", Entry.file none)] "payload.tar.gz" = false ∧
    lookupKey [("a", Entry.file none)] "a" = some (Entry.file none) := by
  have h := (c3_nested_archive_flattening
    [("payload.tar.gz", Entry.file (some [("a", Entry.file none)]))]).1
    "payload.tar.gz" [("a", Entry.file none)] rfl
  exact ⟨h.1, h.2.1, h.2.2 "a" (Entry.file none) (by simp) (by simp) (by decide)⟩

/-- A rename into a directory that does not yet contain the name succeeds
on the first retry attempt. -/
theorem move_entry_ok (parent : List (String × Entry)) (n : String) (e : Entry)
    (h : hasKey parent n = false) :
    move_entry parent n e = Except.ok (parent ++ [(n, e)]) := by
  unfold move_entry
  have hop : (fun _ : Nat => rename_entry parent n e) =
      (fun _ : Nat => Except.ok (parent ++ [(n, e)])) :=
    funext (fun _ => by simp [rename_entry, h])
  rw [hop]
  rfl

/-- A rename onto an existing name fails retryably on each of the five
attempts and then propagates the OSError. -/
theorem move_entry_fail (parent : List (String × Entry)) (n : String) (e : Entry)
    (h : hasKey parent n = true) :
    move_entry parent n e = Except.error PyExc.osError := by
  unfold move_entry
  have hop : (fun _ : Nat => rename_entry parent n e) =
      (fun _ : Nat => (Except.error PyExc.osError : Except PyExc (List (String × Entry)))) :=
    funext (fun _ => by simp [rename_entry, h])
  rw [hop]
  rfl

/-- The move loop appends the moved entries in order when none of their
names collides with the destination directory's entries. -/
theorem moveChildren_ok (rest : List (String × Entry)) :
    ∀ (parent : List (String × Entry)),
    (∀ q ∈ rest, hasKey parent q.1 = false) → (rest.map Prod.fst).Nodup →
    moveChildren parent rest = Except.ok (parent ++ rest) := by
  induction rest with
  | nil => intro parent _ _; simp [moveChildren]
  | cons q rest ih =>
    intro parent hkeys hnodup
    obtain ⟨n, e⟩ := q
    rw [List.map_cons, List.nodup_cons] at hnodup
    have hstep : moveChildren parent ((n, e) :: rest) =
        match move_entry parent n e with
        | Except.ok p => moveChildren p rest
        | Except.error err => Except.error err := rfl
    rw [hstep, move_entry_ok parent n e (hkeys (n, e) (List.mem_cons_self _ _))]
    have hkeys2 : ∀ q2 ∈ rest, hasKey (parent ++ [(n, e)]) q2.1 = false := by
      intro q2 hq2
      rw [hasKey_append]
      have h1 : hasKey parent q2.1 = false := hkeys q2 (List.mem_cons_of_mem _ hq2)
      have h2 : hasKey [(n, e)] q2.1 = false := by
        have hne : ¬ n = q2.1 := by
          intro hn
          have hm : q2.1 ∈ rest.map Prod.fst := List.mem_map_of_mem Prod.fst hq2
          rw [← hn] at hm
          exact hnodup.1 hm
        simp [hasKey, hne]
      rw [h1, h2]
      rfl
    show moveChildren (parent ++ [(n, e)]) rest = Except.ok (parent ++ (n, e) :: rest)
    rw [ih (parent ++ [(n, e)]) hkeys2 hnodup.2, List.append_assoc]
    rfl

/-- Erasing a name absent from a listing is the identity. -/
theorem eraseKey_not_mem (w : String) (l : List (String × Entry))
    (h : ∀ q ∈ l, q.1 ≠ w) : eraseKey w l = l := by
  induction l with
  | nil => rfl
  | cons p l ih =>
    have hp : ¬ p.1 = w := h p (List.mem_cons_self _ _)
    rw [show eraseKey w (p :: l) = p :: eraseKey w l from by
      simp [eraseKey, List.filter_cons, hp]]
    rw [ih (fun q hq => h q (List.mem_cons_of_mem _ hq))]

/-- C4 counterexample to the claim as stated: when the wrapping
subdirectory contains a child bearing the wrapping directory's own name,
the rename of that child targets the (existing, non-empty) wrapping
directory itself, so os.rename raises an OSError, the retry wrapper
re-raises it after its five attempts, and the flattening step fails
instead of preserving the children — the claim's unconditional
path-preservation is false at this input. -/
theorem c4_counterexample :
    flattenSingleSubdir [("x", Entry.dir [("x", Entry.file none)])] =
      Except.error PyExc.osError := rfl

/-- C4 amended: whenever, after nested-archive flattening, the artifact
directory contains exactly one entry and that entry is a directory whose
children have pairwise distinct names none of which equals the wrapping
directory's name, the flattening moves every child up (each move under the
retry wrapper), removes the emptied wrapping directory, preserves the full
listing (hence every descendant path relative to the collapsed
subdirectory), and afterwards the wrapping name no longer exists. -/
theorem c4_single_subdir_flattening (children : List (String × Entry))
    (wrapName : String) (sub : List (String × Entry))
    (hflat : flattenNestedArchive children = Except.ok [(wrapName, Entry.dir sub)])
    (hnodup : (sub.map Prod.fst).Nodup)
    (hfresh : ∀ q ∈ sub, q.1 ≠ wrapName) :
    normalize_artifact_dir children = Except.ok sub ∧
    hasKey sub wrapName = false := by
  have hkeys : ∀ q ∈ sub, hasKey [(wrapName, Entry.dir sub)] q.1 = false := by
    intro q hq
    have hne : ¬ wrapName = q.1 := fun hn => hfresh q hq hn.symm
    simp [hasKey, hne]
  have hmv := moveChildren_ok sub [(wrapName, Entry.dir sub)] hkeys hnodup
  have hflatten : flattenSingleSubdir [(wrapName, Entry.dir sub)] = Except.ok sub := by
    rw [show flattenSingleSubdir [(wrapName, Entry.dir sub)] =
        (match moveChildren [(wrapName, Entry.dir sub)] sub with
        | Except.ok p => Except.ok (eraseKey wrapName p)
        | Except.error err => Except.error err) from rfl]
    rw [hmv]
    show Except.ok (eraseKey wrapName ((wrapName, Entry.dir sub) :: sub)) = _
    rw [show eraseKey wrapName ((wrapName, Entry.dir sub) :: sub) =
        eraseKey wrapName sub from by simp [eraseKey, List.filter_cons]]
    rw [eraseKey_not_mem wrapName sub hfresh]
  constructor
  · unfold normalize_artifact_dir
    rw [hflat]
    exact hflatten
  · cases hk : hasKey sub wrapName with
    | false => rfl
    | true =>
      exfalso
      unfold hasKey at hk
      obtain ⟨q, hq, hqe⟩ := List.any_eq_true.mp hk
      exact hfresh q hq (by simpa using hqe)

/-- C4 witness: an artifact whose zip wraps an inner tarball holding a
single onnxruntime directory is fully flattened: the directory's children
are lifted into the artifact directory and the wrapping name is gone. -/
theorem c4_witness :
    normalize_artifact_dir
      [("inner.tgz", Entry.file (some
        [("onnxruntime", Entry.dir
          [("include", Entry.dir []), ("lib", Entry.file none)])]))] =
      Except.ok [("include", Entry.dir []), ("lib", Entry.file none)] ∧
    hasKey [("include", Entry.dir []), ("lib", Entry.file none)] "onnxruntime" = false := by
  have h := c4_single_subdir_flattening
    [("inner.tgz", Entry.file (some
      [("onnxruntime", Entry.dir
        [("include", Entry.dir []), ("lib", Entry.file none)])]))]
    "onnxruntime" [("include", Entry.dir []), ("lib", Entry.file none)]
    rfl (by simp) (by decide)
  exact h

/-- C5: for every zip member whose stored upper-16 attribute bits mark it
as a symbolic link, extraction produces a real symlink whose target is
exactly the entry's decoded content, or — exactly when the platform
rejects symlink creation — a regular file holding that target text
verbatim; on Windows the target_is_directory hint passed to os.symlink is
true exactly when the target text ends with a slash or a backslash. -/
theorem c5_symlink_extraction (osName : String) (symlinkOk chmodOk : Bool)
    (info : ZipMember) (hlnk : S_ISLNK (info.external_attr >>> 16) = true) :
    ((processMember osName symlinkOk chmodOk info).node = FsNode.symlink info.content ∨
      (symlinkOk = false ∧
        (processMember osName symlinkOk chmodOk info).node = FsNode.regular info.content)) ∧
    (symlinkOk = true →
      (processMember osName symlinkOk chmodOk info).node = FsNode.symlink info.content) ∧
    (symlinkOk = false →
      (processMember osName symlinkOk chmodOk info).node = FsNode.regular info.content) ∧
    (osName = "nt" →
      (processMember osName symlinkOk chmodOk info).dirHint =
        some (strEndsWith info.content "/" || strEndsWith info.content "\\")) := by
  cases hs : symlinkOk <;> by_cases hos : osName = "nt" <;>
    simp [processMember, hlnk, hos]

/-- C5 witness: a symlink member with mode 0o120777 on Windows with
symlink privilege becomes a real symlink, and its directory hint is true
for the trailing-slash target. -/
theorem c5_witness :
    (processMember "nt" true true
      { filename := "pkg/link", external_attr := 0o120777 <<< 16,
        content := "dir/" }).node = FsNode.symlink "dir/" ∧
    (processMember "nt" true true
      { filename := "pkg/link", external_attr := 0o120777 <<< 16,
        content := "dir/" }).dirHint = some true ∧
    (processMember "posix" false true
      { filename := "pkg/link", external_attr := 0o120777 <<< 16,
        content := "target.so" }).node = FsNode.regular "target.so" := by
  have h1 := c5_symlink_extraction "nt" true true
    { filename := "pkg/link", external_attr := 0o120777 <<< 16, content := "dir/" }
    (by decide)
  have h2 := c5_symlink_extraction "posix" false true
    { filename := "pkg/link", external_attr := 0o120777 <<< 16, content := "target.so" }
    (by decide)
  refine ⟨h1.2.1 rfl, ?_, h2.2.2.1 rfl⟩
  rw [h1.2.2.2 rfl]
  rfl

/-- C8: for every zip member that is not a symlink, the stored upper-16
attribute bits are applied through os.chmod exactly when they are
non-zero (members with zero stored attributes get no chmod call), a chmod
failure is swallowed so the member's processing raises nothing, and the
member loop processes every member of the archive whether or not chmod
works. -/
theorem c8_permission_bits (osName : String) (symlinkOk chmodOk : Bool)
    (info : ZipMember) (hreg : S_ISLNK (info.external_attr >>> 16) = false) :
    (info.external_attr >>> 16 ≠ 0 →
      (processMember osName symlinkOk chmodOk info).chmodCall =
        some (info.external_attr >>> 16)) ∧
    (info.external_attr >>> 16 = 0 →
      (processMember osName symlinkOk chmodOk info).chmodCall = none) ∧
    (processMember osName symlinkOk chmodOk info).raised = none ∧
    (∀ members : List ZipMember,
      (unzipMembers osName symlinkOk chmodOk members).length = members.length) := by
  refine ⟨?_, ?_, ?_, ?_⟩
  · intro hz
    simp [processMember, hreg, hz]
  · intro hz
    simp [processMember, hreg, hz, show S_ISLNK 0 = false from rfl]
  · by_cases hz : info.external_attr >>> 16 = 0 <;>
      simp [processMember, hreg, hz, show S_ISLNK 0 = false from rfl]
  · intro members
    simp [unzipMembers]

/-- C8 witness: a regular member with mode 0o100755 gets exactly that
chmod call and raises nothing even when chmod cannot work; a member with
zero stored attributes gets no chmod call. -/
theorem c8_witness :
    (processMember "posix" true false
      { filename := "lib/file", external_attr := 0o100755 <<< 16,
        content := "data" }).chmodCall = some (0o100755 <<< 16 >>> 16) ∧
    (processMember "posix" true false
      { filename := "lib/file", external_attr := 0o100755 <<< 16,
        content := "data" }).raised = none ∧
    (processMember "posix" true false
      { filename := "lib/plain", external_attr := 0,
        content := "data" }).chmodCall = none := by
  have h1 := c8_permission_bits "posix" true false
    { filename := "lib/file", external_attr := 0o100755 <<< 16, content := "data" }
    (by decide)
  have h2 := c8_permission_bits "posix" true false
    { filename := "lib/plain", external_attr := 0, content := "data" }
    (by decide)
  exact ⟨h1.1 (by decide), h1.2.2.1, h2.2.1 rfl⟩

/-- The code-point order on character lists is total. -/
theorem listLeChars_total : ∀ (as bs : List Char),
    listLeChars as bs = true ∨ listLeChars bs as = true := by
  intro as
  induction as with
  | nil => intro bs; left; rfl
  | cons a as ih =>
    intro bs
    cases bs with
    | nil => right; rfl
    | cons b bs =>
      rcases lt_trichotomy a b with h | h | h
      · left
        simp [listLeChars, h]
      · subst h
        rcases ih bs with h2 | h2
        · left
          simp [listLeChars, lt_irrefl, h2]
        · right
          simp [listLeChars, lt_irrefl, h2]
      · right
        simp [listLeChars, h]

/-- The code-point order on character lists is transitive. -/
theorem listLeChars_trans : ∀ (as bs cs : List Char),
    listLeChars as bs = true → listLeChars bs cs = true →
    listLeChars as cs = true := by
  intro as
  induction as with
  | nil => intro bs cs _ _; rfl
  | cons a as ih =>
    intro bs cs h1 h2
    cases bs with
    | nil => simp [listLeChars] at h1
    | cons b bs2 =>
      cases cs with
      | nil => simp [listLeChars] at h2
      | cons c cs2 =>
        by_cases hab : a < b
        · by_cases hbc : b < c
          · simp [listLeChars, lt_trans hab hbc]
          · by_cases hcb : c < b
            · simp [listLeChars, hbc, hcb] at h2
            · have hbc2 : b = c := le_antisymm (not_lt.mp hcb) (not_lt.mp hbc)
              subst hbc2
              simp [listLeChars, hab]
        · by_cases hba : b < a
          · simp [listLeChars, hab, hba] at h1
          · have hab2 : a = b := le_antisymm (not_lt.mp hba) (not_lt.mp hab)
            subst hab2
            have h1x : listLeChars as bs2 = true := by
              simpa [listLeChars, lt_irrefl] using h1
            by_cases hac : a < c
            · simp [listLeChars, hac]
            · by_cases hca : c < a
              · simp [listLeChars, hac, hca] at h2
              · have hac2 : a = c := le_antisymm (not_lt.mp hca) (not_lt.mp hac)
                subst hac2
                have h2x : listLeChars bs2 cs2 = true := by
                  simpa [listLeChars, lt_irrefl] using h2
                simp [listLeChars, lt_irrefl]
                exact ih bs2 cs2 h1x h2x

instance : IsTotal String (fun a b => strLe a b = true) :=
  ⟨fun a b => listLeChars_total a.data b.data⟩

instance : IsTrans String (fun a b => strLe a b = true) :=
  ⟨fun a b c => listLeChars_trans a.data b.data c.data⟩

/-- C9: for every file set of an archive's library directory, the main
library is a file whose basename equals one of the ten fixed expected
names (and none is found exactly when no file matches); extra_files holds
exactly the other files with a .dll/.so/.dylib/.pdb extension or a .so.
infix, sorted by code points; and on the concrete scenario with
libonnxruntime.so.1.2.3 plus libonnxruntime_sx.so under onnxruntime/lib,
the main library is libonnxruntime_sx.so and the extras are exactly
[libonnxruntime.so.1.2.3]. -/
theorem c9_manifest_library_selection (files : List String) (f g : String) :
    (find_onnxruntime_library files = some f → f ∈ files ∧ f ∈ expected_ort_names) ∧
    (find_onnxruntime_library files = none → ∀ x ∈ files, x ∉ expected_ort_names) ∧
    (g ∈ get_extra_files files f ↔
      (g ∈ files ∧ g ≠ f ∧ (has_lib_extension g = true ∨ has_so_infix g = true))) ∧
    List.Sorted (fun a b => strLe a b = true) (get_extra_files files f) ∧
    (find_lib_directory
        ["onnxruntime/lib/libonnxruntime.so.1.2.3",
         "onnxruntime/lib/libonnxruntime_sx.so"] = some "onnxruntime/lib" ∧
      get_files_in_directory
        ["onnxruntime/lib/libonnxruntime.so.1.2.3",
         "onnxruntime/lib/libonnxruntime_sx.so"] "onnxruntime/lib" =
        ["libonnxruntime.so.1.2.3", "libonnxruntime_sx.so"] ∧
      find_onnxruntime_library ["libonnxruntime.so.1.2.3", "libonnxruntime_sx.so"] =
        some "libonnxruntime_sx.so" ∧
      get_extra_files ["libonnxruntime.so.1.2.3", "libonnxruntime_sx.so"]
        "libonnxruntime_sx.so" = ["libonnxruntime.so.1.2.3"]) := by
  refine ⟨?_, ?_, ?_, ?_, rfl, rfl, rfl, rfl⟩
  · intro h
    refine ⟨List.mem_of_find?_eq_some h, ?_⟩
    have hc := List.find?_some h
    simpa using hc
  · intro h x hx hmem
    have := List.find?_eq_none.mp h x hx
    simp at this
    exact this hmem
  · unfold get_extra_files
    rw [List.Perm.mem_iff (List.perm_insertionSort _ _), List.mem_filter]
    simp [Bool.and_eq_true, Bool.or_eq_true, and_assoc]
  · exact List.sorted_insertionSort _ _

/-- C9 witness: the concrete library directory of the end-to-end scenario,
with the general membership facts instantiated on it. -/
theorem c9_witness :
    "libonnxruntime_sx.so" ∈ ["libonnxruntime.so.1.2.3", "libonnxruntime_sx.so"] ∧
    "libonnxruntime_sx.so" ∈ expected_ort_names ∧
    "libonnxruntime.so.1.2.3" ∈
      get_extra_files ["libonnxruntime.so.1.2.3", "libonnxruntime_sx.so"]
        "libonnxruntime_sx.so" := by
  have h := c9_manifest_library_selection
    ["libonnxruntime.so.1.2.3", "libonnxruntime_sx.so"] "libonnxruntime_sx.so"
    "libonnxruntime.so.1.2.3"
  have ha := h.1 rfl
  refine ⟨ha.1, ha.2, ?_⟩
  exact h.2.2.1.mpr ⟨by simp, by decide, Or.inr rfl⟩

/-- str.split never returns an empty list of parts. -/
theorem pySplitAux_ne_nil (sep : Char) : ∀ (rest : List Char) (fuel : Nat)
    (acc : List Char), pySplitAux sep fuel acc rest ≠ [] := by
  intro rest
  induction rest with
  | nil => intro fuel acc; cases fuel <;> simp [pySplitAux]
  | cons c cs ih =>
    intro fuel acc
    cases fuel with
    | zero => simp [pySplitAux]
    | succ n =>
      by_cases hc : c = sep
      · simp [pySplitAux, hc]
      · simpa [pySplitAux, hc] using ih (n + 1) (c :: acc)

/-- str.split(sep, maxsplit) returns at most maxsplit+1 parts. -/
theorem pySplitAux_length_le (sep : Char) : ∀ (rest : List Char) (fuel : Nat)
    (acc : List Char), (pySplitAux sep fuel acc rest).length ≤ fuel + 1 := by
  intro rest
  induction rest with
  | nil => intro fuel acc; cases fuel <;> simp [pySplitAux]
  | cons c cs ih =>
    intro fuel acc
    cases fuel with
    | zero => simp [pySplitAux]
    | succ n =>
      by_cases hc : c = sep
      · have hrec := ih n []
        simp [pySplitAux, hc]
        omega
      · simpa [pySplitAux, hc] using ih (n + 1) (c :: acc)

/-- The split parts joined back with the separator give the original
string (so the third part of a maxsplit-2 split is exactly everything
after the second separator). -/
theorem joinDash_pySplitAux : ∀ (rest : List Char) (fuel : Nat) (acc : List Char),
    joinDash (pySplitAux '-' fuel acc rest) = acc.reverse ++ rest := by
  intro rest
  induction rest with
  | nil =>
    intro fuel acc
    cases fuel <;> simp [pySplitAux, joinDash]
  | cons c cs ih =>
    intro fuel acc
    cases fuel with
    | zero => simp [pySplitAux, joinDash]
    | succ n =>
      by_cases hc : c = '-'
      · rw [show pySplitAux '-' (n + 1) acc (c :: cs) =
            acc.reverse :: pySplitAux '-' n [] cs from by simp [pySplitAux, hc]]
        obtain ⟨y, l2, hyl⟩ := List.exists_cons_of_ne_nil (pySplitAux_ne_nil '-' cs n [])
        rw [hyl]
        rw [show joinDash (acc.reverse :: y :: l2) =
            acc.reverse ++ '-' :: joinDash (y :: l2) from rfl]
        rw [← hyl, ih n []]
        simp [hc]
      · rw [show pySplitAux '-' (n + 1) acc (c :: cs) =
            pySplitAux '-' (n + 1) (c :: acc) cs from by simp [pySplitAux, hc]]
        rw [ih (n + 1) (c :: acc)]
        simp

/-- Every part before the last one contains no separator. -/
theorem pySplitAux_no_dash : ∀ (rest : List Char) (fuel : Nat) (acc : List Char),
    (∀ x ∈ acc, x ≠ '-') →
    ∀ part ∈ (pySplitAux '-' fuel acc rest).dropLast, ∀ x ∈ part, x ≠ '-' := by
  intro rest
  induction rest with
  | nil =>
    intro fuel acc hacc part hpart
    cases fuel <;> simp [pySplitAux] at hpart
  | cons c cs ih =>
    intro fuel acc hacc part hpart
    cases fuel with
    | zero => simp [pySplitAux] at hpart
    | succ n =>
      by_cases hc : c = '-'
      · rw [show pySplitAux '-' (n + 1) acc (c :: cs) =
            acc.reverse :: pySplitAux '-' n [] cs from by simp [pySplitAux, hc]] at hpart
        obtain ⟨y, l2, hyl⟩ := List.exists_cons_of_ne_nil (pySplitAux_ne_nil '-' cs n [])
        rw [hyl] at hpart
        rw [show (acc.reverse :: y :: l2).dropLast =
            acc.reverse :: (y :: l2).dropLast from rfl] at hpart
        rcases List.mem_cons.mp hpart with h2 | h2
        · subst h2
          intro x hx
          exact hacc x (List.mem_reverse.mp hx)
        · refine ih n [] (by simp) part ?_
          rw [hyl]
          exact h2
      · rw [show pySplitAux '-' (n + 1) acc (c :: cs) =
            pySplitAux '-' (n + 1) (c :: acc) cs from by simp [pySplitAux, hc]] at hpart
        refine ih (n + 1) (c :: acc) ?_ part hpart
        intro x hx
        rcases List.mem_cons.mp hx with h2 | h2
        · subst h2
          exact hc
        · exact hacc x h2

/-- C10: the manifest key of an archive stem is always the lower-cased
result of strip_version_prefix; the ort-version- prefix is stripped
exactly when the stem splits on dashes into at least three parts whose
first part is ort, in which case the key is everything after the second
dash (lower-cased; the first two parts contain no dash and the parts
rebuild the stem), and every other stem becomes the key unchanged apart
from lower-casing. -/
theorem c10_manifest_key (stem : String) :
    (3 ≤ (pySplitDash2 stem).length ∧ (pySplitDash2 stem).getD 0 "" = "ort" →
      manifest_key stem = strLower ((pySplitDash2 stem).getD 2 "") ∧
      stem.data = ((pySplitDash2 stem).getD 0 "").data ++
        '-' :: (((pySplitDash2 stem).getD 1 "").data ++
          '-' :: ((pySplitDash2 stem).getD 2 "").data) ∧
      (∀ x ∈ ((pySplitDash2 stem).getD 0 "").data, x ≠ '-') ∧
      (∀ x ∈ ((pySplitDash2 stem).getD 1 "").data, x ≠ '-')) ∧
    (¬ (3 ≤ (pySplitDash2 stem).length ∧ (pySplitDash2 stem).getD 0 "" = "ort") →
      manifest_key stem = strLower stem) := by
  constructor
  · intro hcond
    have hmap : (pySplitDash2 stem).length =
        (pySplitAux '-' 2 [] stem.data).length := by
      simp [pySplitDash2]
    have hle := pySplitAux_length_le '-' stem.data 2 []
    have hge := hcond.1
    have hlen3 : (pySplitAux '-' 2 [] stem.data).length = 3 := by omega
    obtain ⟨a, b, c, habc⟩ := List.length_eq_three.mp hlen3
    have hparts : pySplitDash2 stem = [String.mk a, String.mk b, String.mk c] := by
      simp [pySplitDash2, habc]
    refine ⟨?_, ?_, ?_, ?_⟩
    · simp only [manifest_key, strip_version_pre]
      rw [if_pos hcond]
    · have hj := joinDash_pySplitAux stem.data 2 []
      rw [habc] at hj
      simp only [joinDash, List.nil_append] at hj
      rw [hparts]
      exact hj.symm
    · have hnd := pySplitAux_no_dash stem.data 2 [] (by simp)
      rw [habc] at hnd
      rw [hparts]
      intro x hx
      exact hnd a (by simp) x hx
    · have hnd := pySplitAux_no_dash stem.data 2 [] (by simp)
      rw [habc] at hnd
      rw [hparts]
      intro x hx
      exact hnd b (by simp) x hx
  · intro hcond
    simp only [manifest_key, strip_version_pre]
    rw [if_neg hcond]

/-- C10 witness: an ort-prefixed stem is stripped and lower-cased, a stem
of another tool and a stem with a single dash are only lower-cased. -/
theorem c10_witness :
    manifest_key "ort-1.22.0-Linux-X64" = "linux-x64" ∧
    manifest_key "sx-tools-99" = "sx-tools-99" ∧
    manifest_key "ORT-stem" = "ort-stem" := by
  have h1 := (c10_manifest_key "ort-1.22.0-Linux-X64").1 (by decide)
  have h2 := (c10_manifest_key "sx-tools-99").2 (by decide)
  have h3 := (c10_manifest_key "ORT-stem").2 (by decide)
  refine ⟨?_, ?_, ?_⟩
  · rw [h1.1]
    rfl
  · rw [h2]
    rfl
  · rw [h3]
    rfl
